import Mathlib

/-!
Verification development for the Facebook photo/comment scraper and viewer.

The JavaScript sources are shallowly embedded as Lean definitions:

* the scraper (`scrapePostDate`, `scrapePostAuthorAndMeta`, `scrapeEngagement`,
  `scrapeCommentsAndAvatars` with its depth-stack comment-tree builder and
  `removeEmptyReplies` strip pass), and
* the viewer (`flattenComments`, `handleNextComment`, `handlePreviousComment`).

DOM elements are embedded as records carrying exactly the data the scraper
reads from them (text content, bounding-box coordinates, attribute values);
JavaScript strings are Lean `String`s, JavaScript numbers that can only hold
naturals are `Nat` (with `Option Nat` where the code can produce `NaN`).
-/

/-! ## JavaScript string primitives used by the scraper -/

/-- The whitespace characters relevant to `String.prototype.trim` for the
inputs in scope (the full Unicode set is abbreviated to the common ASCII
whitespace characters). -/
def isWsChar (c : Char) : Bool :=
  c == ' ' || c == '\t' || c == '\n' || c == '\r' || c == '\x0b' || c == '\x0c'

/-- JavaScript `s.trim()`: remove leading and trailing whitespace. -/
def jsTrim (s : String) : String :=
  String.mk (((s.toList.dropWhile isWsChar).reverse.dropWhile isWsChar).reverse)

/-- JavaScript `s.toLowerCase()` on the ASCII fragment relevant here. -/
def jsToLower (s : String) : String :=
  String.mk (s.toList.map Char.toLower)

/-- `/\d/.test(s)`: does the string contain a decimal digit? -/
def hasDigit (s : String) : Bool :=
  s.toList.any Char.isDigit

/-- Value of a nonempty list of decimal digits. -/
def digitsToNat (ds : List Char) : Nat :=
  ds.foldl (fun n c => 10 * n + (c.toNat - 48)) 0

/-- JavaScript `parseInt(s, 10)` restricted to the call sites in scope: every
call site passes either a maximal digit run or a comma-stripped `[\d,]+`
match, so sign and whitespace handling is never exercised.  `none` models the
JavaScript `NaN` result for a digit-free string. -/
def parseIntJS (s : String) : Option Nat :=
  let ds := s.toList.takeWhile Char.isDigit
  if ds.isEmpty then none else some (digitsToNat ds)

/-- `parseInt(s, 10) || 0` as used for the engagement numbers. -/
def parseIntOr0 (s : String) : Nat :=
  (parseIntJS s).getD 0

/-- Worker for `digitRuns`: `acc` holds the digits of the run currently being
read, in reverse. -/
def digitRunsGo : List Char → List Char → List String
  | [], acc => if acc.isEmpty then [] else [String.mk acc.reverse]
  | c :: cs, acc =>
    if c.isDigit then digitRunsGo cs (c :: acc)
    else if acc.isEmpty then digitRunsGo cs []
    else String.mk acc.reverse :: digitRunsGo cs []

/-- JavaScript `s.match(/\d+/g)`: the maximal runs of decimal digits, in
order (the empty list plays the role of the `null` result). -/
def digitRuns (s : String) : List String :=
  digitRunsGo s.toList []

/-- Is `needle` a contiguous substring of `hay`? -/
def containsSub (needle : List Char) : List Char → Bool
  | [] => needle.isEmpty
  | c :: rest => needle.isPrefixOf (c :: rest) || containsSub needle rest

/-- JavaScript `/comment/i.test(s)`. -/
def containsCommentCI (s : String) : Bool :=
  containsSub "comment".toList (jsToLower s).toList

/-- JavaScript `s.replace(/,/g, "")`. -/
def stripCommas (s : String) : String :=
  String.mk (s.toList.filter (fun c => c != ','))

/-- JavaScript `/^\d+$/.test(s)`. -/
def isAllDigits (s : String) : Bool :=
  !s.toList.isEmpty && s.toList.all Char.isDigit

/-! ## Date extractor (`scrapePostDate`)

A one-character `span` inside the date permalink is embedded as its text
together with the `top`/`left` coordinates of its bounding rectangle. -/

structure Span where
  text : String
  y : Int
  x : Int
deriving DecidableEq, Repr

/-- The date permalink element, as read by `scrapePostDate`: its own text
content and its descendant `span`s. -/
structure DateAnchor where
  textContent : String
  spans : List Span
deriving DecidableEq, Repr

/-- The comparator passed to `sort` in `scrapePostDate`: primarily by the
vertical coordinate (with a 5px tolerance), then by the horizontal one. -/
def spanCmp (a b : Span) : Int :=
  if 5 < (a.y - b.y).natAbs then a.y - b.y else a.x - b.x

/-- Stable insertion of a span into an already sorted list (a span is placed
before the first element it does not compare after, which is how a stable
`Array.prototype.sort` settles ties). -/
def insertSpan (a : Span) : List Span → List Span
  | [] => [a]
  | b :: bs => if spanCmp a b ≤ 0 then a :: b :: bs else b :: insertSpan a bs

/-- Stable sort with `spanCmp`, modelling `Array.prototype.sort`. -/
def sortSpans : List Span → List Span
  | [] => []
  | a :: rest => insertSpan a (sortSpans rest)

/-- Worker for the `reduce` in `scrapePostDate`: `acc` is the string built so
far, `prev` the text of the previous fragment. -/
def joinGlyphsGo (acc prev : String) : List Span → String
  | [] => acc
  | s :: rest =>
    joinGlyphsGo
      (if hasDigit prev != hasDigit s.text then acc ++ " " ++ s.text
       else acc ++ s.text)
      s.text rest

/-- The `reduce` in `scrapePostDate`: concatenate the fragment texts; the
index-0 step returns the first text, discarding the initial accumulator. -/
def joinGlyphs : List Span → String
  | [] => ""
  | s :: rest => joinGlyphsGo s.text s.text rest

/-- `scrapePostDate` (scraper lines 133-177): with no single-character spans
the anchor's trimmed text (or the sentinel) is the date; otherwise the
one-character glyphs are sorted by band then position, restricted to the
first line, and concatenated with a space at digit/non-digit transitions. -/
def scrapePostDate (datePermalink : Option DateAnchor) : String :=
  match datePermalink with
  | none => "DATE_NOT_FOUND"
  | some a =>
    let singleCharSpans := a.spans.filter (fun s => (jsTrim s.text).length == 1)
    if singleCharSpans.length == 0 then
      (if jsTrim a.textContent = "" then "DATE_NOT_FOUND" else jsTrim a.textContent)
    else
      match sortSpans singleCharSpans with
      | [] => "DATE_NOT_FOUND"
      | first :: rest =>
        joinGlyphs ((first :: rest).filter (fun s => (s.y - first.y).natAbs < 5))

/-! ## Comment tree data model

A `Comment` node carries `name`, `message` and an optional `replies` array:
`none` models the *absence* of the `replies` property on the JavaScript
object, `some ks` its presence with value `ks`. -/

inductive Comment : Type where
  | mk (name : String) (message : String) (replies : Option (List Comment)) : Comment
deriving Repr

def Comment.name : Comment → String
  | .mk n _ _ => n

def Comment.message : Comment → String
  | .mk _ m _ => m

def Comment.replies : Comment → Option (List Comment)
  | .mk _ _ r => r

/-- One entry of the scraper's `rawComments` array (after the
`filter(Boolean)` that removes unparseable comments, so `name` and `message`
are plain strings): the `commentObject` together with its DOM-derived
`depth`.  The viewer's flattened entries `{...comment, level}` are embedded
as the same shape, with `depth` playing the role of `level`. -/
structure RawCommentRecord where
  name : String
  message : String
  depth : Nat
deriving DecidableEq, Repr

/-! ### The depth-stack builder (scraper lines 317-340)

The JavaScript builder mutates shared objects: every new node is attached to
its parent's `replies` (or to `nestedComments`) the moment it is pushed, and
its own `replies` array is created by later mutations.  The embedding makes
the same construction functional: a stack entry holds the node's fields and
its children collected so far (in reverse), and a node is attached to the
entry below it — or to the top-level output — at the moment it is *popped*.
Both styles attach every node to the same parent in the same position, and a
node's `replies` property exists exactly when at least one reply was pushed
onto it, so the resulting trees coincide with the source's. -/

structure BEntry where
  name : String
  message : String
  revKids : List Comment
  depth : Nat
deriving Repr

structure BState where
  result : List Comment
  stack : List BEntry
deriving Repr

/-- Close a stack entry into a finished `Comment`: the `replies` property
exists iff some reply was attached (the source creates the array lazily on
the first `push`). -/
def closeEntry (e : BEntry) : Comment :=
  Comment.mk e.name e.message (if e.revKids.isEmpty then none else some e.revKids.reverse)

/-- Worker for `popTo`: `pending` is the node just closed, still to be
attached to the next remaining entry (or to the top-level output). -/
def popToGo (d : Nat) (result : List Comment) (pending : Comment) :
    List BEntry → BState
  | [] => ⟨result ++ [pending], []⟩
  | e :: rest =>
    if d ≤ e.depth then
      popToGo d result (closeEntry { e with revKids := pending :: e.revKids }) rest
    else ⟨result, { e with revKids := pending :: e.revKids } :: rest⟩

/-- The builder's pop loop: pop while the stack top's depth is `≥ d`,
attaching each popped node as a reply of the entry below it, or as a
top-level comment when the stack empties. -/
def popTo (d : Nat) (st : BState) : BState :=
  match st.stack with
  | [] => st
  | e :: rest =>
    if d ≤ e.depth then popToGo d st.result (closeEntry e) rest
    else st

/-- Push the current record onto the stack (scraper line 339). -/
def pushEntry (r : RawCommentRecord) (st : BState) : BState :=
  { st with stack := ⟨r.name, r.message, [], r.depth⟩ :: st.stack }

/-- One iteration of the builder's `forEach` (scraper lines 320-340). -/
def stepRecord (st : BState) (r : RawCommentRecord) : BState :=
  pushEntry r (popTo r.depth st)

/-- The nested comment structure produced by the depth-stack loop.  In the
source every node is already attached when pushed; here the final `popTo 0`
pops the whole remaining stack (all depths are `≥ 0`), performing those
attachments. -/
def buildNested (records : List RawCommentRecord) : List Comment :=
  (popTo 0 (records.foldl stepRecord ⟨[], []⟩)).result

/-! ### The strip pass (`removeEmptyReplies`, scraper lines 342-352) -/

mutual

/-- Action of `removeEmptyReplies` on one node: recurse into a nonempty
`replies` array, delete the property otherwise. -/
def removeEmptyRepliesNode : Comment → Comment
  | .mk n m none => .mk n m none
  | .mk n m (some ks) =>
    if 0 < ks.length then .mk n m (some (removeEmptyReplies ks)) else .mk n m none

/-- `removeEmptyReplies` (scraper lines 343-351), acting on a comment array. -/
def removeEmptyReplies : List Comment → List Comment
  | [] => []
  | c :: cs => removeEmptyRepliesNode c :: removeEmptyReplies cs

end

/-- The comment tree as returned by `scrapeCommentsAndAvatars`: the
depth-stack build followed by the strip pass (scraper lines 317-352). -/
def buildCommentTree (records : List RawCommentRecord) : List Comment :=
  removeEmptyReplies (buildNested records)

/-! ### The empty-replies predicate -/

mutual

/-- No node of this comment has a `replies` property holding an empty array
(presence of the property implies at least one reply). -/
def noEmptyRepliesNode : Comment → Bool
  | .mk _ _ none => true
  | .mk _ _ (some ks) => !ks.isEmpty && noEmptyRepliesList ks

/-- `noEmptyRepliesNode` over a comment array. -/
def noEmptyRepliesList : List Comment → Bool
  | [] => true
  | c :: cs => noEmptyRepliesNode c && noEmptyRepliesList cs

end

/-! ### The viewer's flatten (`flattenComments`, viewer lines 52-61) -/

/-- Pre-order flattening of the comment tree, tagging each node with its
nesting level; the viewer recurses only into a present, nonempty `replies`
array. -/
def flattenComments : List Comment → Nat → List RawCommentRecord
  | [], _ => []
  | Comment.mk n m r :: rest, level =>
    ⟨n, m, level⟩ ::
      ((match r with
        | some ks => if 0 < ks.length then flattenComments ks (level + 1) else []
        | none => []) ++ flattenComments rest level)

/-! ## Author/location extractor (`scrapePostAuthorAndMeta`, lines 185-204)

A link element is embedded with a numeric identity so that the source's
reference comparisons (`a !== authorLink`, `a !== datePermalink`) can be
expressed. -/

structure LinkEl where
  id : Nat
  text : String
deriving DecidableEq, Repr

/-- The header container, as read by the extractor: the result of
`querySelector("h2 a")` and the list of all `a` descendants in document
order. -/
structure HeaderDiv where
  authorLink : Option LinkEl
  links : List LinkEl
deriving DecidableEq, Repr

structure AuthorMeta where
  postAuthor : String
  postLocation : String
deriving DecidableEq, Repr

/-- `scrapePostAuthorAndMeta`: author from the `h2 a` link, location from the
first nonempty link that is neither the author link nor the date permalink;
sentinels on every miss.  (When `authorLink` is absent the source compares
`a !== null`, which is true of every element, hence the `true` branches.) -/
def scrapePostAuthorAndMeta (headerDiv : Option HeaderDiv)
    (datePermalink : Option LinkEl) : AuthorMeta :=
  match headerDiv with
  | none => ⟨"AUTHOR_NOT_FOUND", "LOCATION_NOT_FOUND"⟩
  | some h =>
    let postAuthor :=
      match h.authorLink with
      | some a => jsTrim a.text
      | none => "AUTHOR_NOT_FOUND"
    let locationLink := h.links.find? (fun a =>
      (match h.authorLink with
       | some al => a.id != al.id
       | none => true) &&
      (match datePermalink with
       | some dl => a.id != dl.id
       | none => true) &&
      decide (0 < (jsTrim a.text).length))
    match locationLink with
    | some l => ⟨postAuthor, jsTrim l.text⟩
    | none => ⟨postAuthor, "LOCATION_NOT_FOUND"⟩

/-! ## Engagement extractor (`scrapeEngagement`, lines 211-252)

The likers label is parsed against the source regex
`/(.+) and ([\d,]+) others?/` (no flags, so case-sensitive, unanchored).
The implementation below follows the regex's backtracking semantics for this
pattern: the leftmost feasible start position wins, `(.+)` is greedy (longest
feasible capture first) over non-line-terminator characters, `([\d,]+)` is
forced to the maximal digit/comma run because the following literal starts
with a space, and the optional `s` never affects the captures. -/

/-- Characters matched by `.` (anything but a line terminator). -/
def isDotChar (c : Char) : Bool :=
  !(c == '\n' || c == '\r' || c == '\u2028' || c == '\u2029')

/-- Consume an exact literal, returning the remainder. -/
def dropLit : List Char → List Char → Option (List Char)
  | [], cs => some cs
  | _ :: _, [] => none
  | l :: ls, c :: cs => if l == c then dropLit ls cs else none

/-- After the `(.+)` capture: match ` and `, the `([\d,]+)` capture (the
maximal run, necessarily) and the literal ` other`; return the second
capture. -/
def likersAfterName (cs : List Char) : Option (List Char) :=
  match dropLit " and ".toList cs with
  | none => none
  | some cs1 =>
    let run := cs1.takeWhile (fun c => c.isDigit || c == ',')
    if run.isEmpty then none
    else
      match dropLit " other".toList (cs1.drop run.length) with
      | none => none
      | some _ => some run

/-- Try `(.+)` captures of length `k, k-1, …, 1` at the current start. -/
def likersTryLen : Nat → List Char → Option (String × String)
  | 0, _ => none
  | k + 1, cs =>
    match likersAfterName (cs.drop (k + 1)) with
    | some run => some (String.mk (cs.take (k + 1)), String.mk run)
    | none => likersTryLen k cs

/-- Try every start position, leftmost first. -/
def likersSearch : List Char → Option (String × String)
  | [] => none
  | c :: rest =>
    match likersTryLen ((c :: rest).takeWhile isDotChar).length (c :: rest) with
    | some r => some r
    | none => likersSearch rest

/-- `s.match(/(.+) and ([\d,]+) others?/)`, returning the two captures. -/
def likersMatch (s : String) : Option (String × String) :=
  likersSearch s.toList

/-- The stats container, as read by `scrapeEngagement`: its `innerText` and,
when an element with `aria-label*="See who reacted"` exists, that element's
`innerText`. -/
structure StatsDiv where
  innerText : String
  likersText : Option String
deriving DecidableEq, Repr

/-- `likes` record; `otherCount` is `none` exactly when the source stores
JavaScript `NaN` (possible only in the likers-label branch, when the matched
`[\d,]+` run consists solely of commas). -/
structure Likes where
  firstLiker : String
  otherCount : Option Nat
deriving DecidableEq, Repr

structure Engagement where
  likes : Likes
  totalComments : Nat
deriving DecidableEq, Repr

/-- The number heuristic (lines 222-233): `likes.otherCount` and
`totalComments` after parsing the integer runs of the stats text, before the
likers-label override. -/
def engagementHeuristic (statsText : String) : Option Nat × Nat :=
  match digitRuns statsText with
  | [] => (some 0, 0)
  | n0 :: rest =>
    match rest with
    | _ :: _ => (some (parseIntOr0 n0), parseIntOr0 (rest.getLastD n0))
    | [] =>
      if containsCommentCI statsText then (some 0, parseIntOr0 n0)
      else (some (parseIntOr0 n0), 0)

/-- `scrapeEngagement`: the number heuristic, then the likers-label
override. -/
def scrapeEngagement (statsDiv : Option StatsDiv) : Engagement :=
  match statsDiv with
  | none => ⟨⟨"", some 0⟩, 0⟩
  | some d =>
    let oc := (engagementHeuristic d.innerText).1
    let tc := (engagementHeuristic d.innerText).2
    match d.likersText with
    | none => ⟨⟨"", oc⟩, tc⟩
    | some raw =>
      let t := jsTrim raw
      if t = "" then ⟨⟨"", oc⟩, tc⟩
      else
        match likersMatch t with
        | some (name, cnt) => ⟨⟨jsTrim name, parseIntJS (stripCommas cnt)⟩, tc⟩
        | none => if isAllDigits t then ⟨⟨"", oc⟩, tc⟩ else ⟨⟨t, oc⟩, tc⟩

/-! ## Comment & avatar extractor (`scrapeCommentsAndAvatars`, lines 261-356)

A comment article element is embedded with the data the scraper reads from
it.  The `authorName` field holds the result of the aria-label pattern match
`/by (.*?)(?: to .*'s comment| \d+)/` followed by `trim` — `none` when the
label does not match; no claim depends on that pattern's internals, and
quantifying over the field's value covers every concrete label.  The
`avatarHref` field is `querySelector("image")?.getAttribute("xlink:href")`:
the outer option is the element's existence, the inner one the attribute's
(JavaScript `null`). -/

structure ArticleEl where
  depth : Nat
  authorName : Option String
  messageText : Option String
  avatarHref : Option (Option String)
deriving DecidableEq, Repr

/-- The avatar map: a JavaScript object used as a string-keyed dictionary.
A value of `none` is a stored JavaScript `null`. -/
def AvatarMap : Type := List (String × Option String)

/-- `m[k] = v`: update the existing entry in place or append a new one. -/
def setKey : AvatarMap → String → Option String → AvatarMap
  | [], k, v => [(k, v)]
  | (k', v') :: rest, k, v =>
    if k' = k then (k, v) :: rest else (k', v') :: setKey rest k v

/-- `m[k]`: `none` plays the role of `undefined`. -/
def getKey : AvatarMap → String → Option (Option String)
  | [], _ => none
  | (k', v') :: rest, k => if k' = k then some v' else getKey rest k

/-- Truthiness of `m[k]`: a stored, non-null, nonempty string
(`undefined`, `null` and `""` are all falsy). -/
def truthyAt (m : AvatarMap) (k : String) : Bool :=
  match getKey m k with
  | some (some s) => s != ""
  | _ => false

/-- The hard-coded placeholder used for `avatars.fallback`. -/
def placeholderAvatar : String :=
  "https://placehold.co/32x32/FFFFFF/000000?text=A"

/-- Lines 285-292: the parsed `(authorName, message)` of one article, `none`
when the record is discarded (`message` is kept only when an author name was
found, is non-null and nonempty after trimming). -/
def parseArticle (el : ArticleEl) : Option (String × String) :=
  match el.authorName, el.messageText with
  | some n, some mt =>
    if n ≠ "" then (if jsTrim mt ≠ "" then some (n, jsTrim mt) else none) else none
  | _, _ => none

/-- One step of the per-article pass (lines 276-308): record the avatar when
the article has a truthy avatar image and no truthy entry exists for the
author yet, and append the raw comment record. -/
def scrapeStep (acc : AvatarMap × List RawCommentRecord) (el : ArticleEl) :
    AvatarMap × List RawCommentRecord :=
  match parseArticle el with
  | none => acc
  | some (n, m) =>
    let av :=
      match el.avatarHref with
      | some (some h) =>
        if h != "" && !truthyAt acc.1 n then setKey acc.1 n (some h) else acc.1
      | _ => acc.1
    (av, acc.2 ++ [⟨n, m, el.depth⟩])

/-- Lines 271-274: seed the post author's avatar from the header when the
avatar image element exists and the author was found. -/
def seedAvatars (postAuthorName : String) (authorAvatarEl : Option (Option String)) :
    AvatarMap :=
  match authorAvatarEl with
  | some href => if postAuthorName ≠ "AUTHOR_NOT_FOUND" then setKey [] postAuthorName href else []
  | none => []

/-- `scrapeCommentsAndAvatars`: the pair `(comments, avatars)`.
`commentsDiv` is embedded as the list of its article-role descendants;
`authorAvatarEl` is the document-level author avatar image lookup of lines
271-274. -/
def scrapeCommentsAndAvatars (commentsDiv : Option (List ArticleEl))
    (postAuthorName : String) (authorAvatarEl : Option (Option String)) :
    List Comment × AvatarMap :=
  match commentsDiv with
  | none => ([], [])
  | some articles =>
    let seeded := seedAvatars postAuthorName authorAvatarEl
    let avatars := (articles.foldl scrapeStep (seeded, [])).1
    let rawComments := (articles.foldl scrapeStep (seeded, [])).2
    if rawComments.isEmpty then
      ([], setKey avatars "fallback" (some placeholderAvatar))
    else
      (buildCommentTree rawComments, setKey avatars "fallback" (some placeholderAvatar))

/-- Refinement reference for the first-seen-wins property, following the
spec's words: the avatar URL carried by the first parsed comment by `name`
whose avatar URL is truthy (non-null and nonempty). -/
def specFirstAvatarFor (articles : List ArticleEl) (name : String) : Option String :=
  articles.findSome? (fun el =>
    match parseArticle el with
    | some (n, _) =>
      if n = name then
        match el.avatarHref with
        | some (some h) => if h ≠ "" then some h else none
        | _ => none
      else none
    | none => none)

/-! ## Viewer navigation (`handleNextComment` / `handlePreviousComment`,
viewer lines 147-195)

The viewer state consists of the navigation index, the rendered sidebar
comments (children of `commentsContainer`, in append order) and the single
overlay bubble (`none` when the overlay container is empty). -/

inductive NavStep : Type where
  | next : NavStep
  | prev : NavStep
deriving DecidableEq, Repr

structure ViewerState where
  currentCommentIndex : Nat
  rendered : List RawCommentRecord
  overlay : Option RawCommentRecord
deriving DecidableEq, Repr

/-- `updateOverlayComments` (lines 154-160): clear, then show the most
recently revealed comment when the index is positive. -/
def updateOverlay (flat : List RawCommentRecord) (idx : Nat) : Option RawCommentRecord :=
  if idx = 0 then none else flat.get? (idx - 1)

/-- `handleNextComment` (lines 166-180); the `shouldScroll` argument only
affects scrolling, not the state. -/
def handleNextComment (flat : List RawCommentRecord) (s : ViewerState) : ViewerState :=
  if h : s.currentCommentIndex < flat.length then
    { currentCommentIndex := s.currentCommentIndex + 1,
      rendered := s.rendered ++ [flat.get ⟨s.currentCommentIndex, h⟩],
      overlay := updateOverlay flat (s.currentCommentIndex + 1) }
  else s

/-- `handlePreviousComment` (lines 185-195). -/
def handlePreviousComment (flat : List RawCommentRecord) (s : ViewerState) : ViewerState :=
  if 0 < s.currentCommentIndex then
    { currentCommentIndex := s.currentCommentIndex - 1,
      rendered := s.rendered.dropLast,
      overlay := updateOverlay flat (s.currentCommentIndex - 1) }
  else s

/-- A sequence of navigation steps (arrow keys / image clicks). -/
def runNav (flat : List RawCommentRecord) (steps : List NavStep) (s : ViewerState) :
    ViewerState :=
  steps.foldl (fun st step =>
    match step with
    | .next => handleNextComment flat st
    | .prev => handlePreviousComment flat st) s

/-- The state after `initializeApp` populates the page: no comment revealed. -/
def initViewer : ViewerState := ⟨0, [], none⟩

/-! ## Auxiliary definitions used only in statements and proofs -/

/-- The children the viewer's flatten recurses into: the `replies` array when
present and nonempty, nothing otherwise. -/
def kidsOf (c : Comment) : List Comment :=
  match c.replies with
  | some ks => if 0 < ks.length then ks else []
  | none => []

/-- Attach a finished comment sequence: to the top stack entry's collected
children when the stack is nonempty, to the top-level output otherwise.
`popTo`-ing the records of a flattened comment sequence amounts to exactly
this (the key lemma of the round-trip proof). -/
def addChildren (cs : List Comment) (st : BState) : BState :=
  match st.stack with
  | [] => ⟨st.result ++ cs, []⟩
  | e :: rest => ⟨st.result, { e with revKids := cs.reverse ++ e.revKids } :: rest⟩

/-- Separator-aware concatenation of the fragments after the first, stated
from the spec's words: a space exactly at digit-class/non-digit-class
boundaries between consecutive fragments, never within a same-class run. -/
def specSeps (p : String) : List String → String
  | [] => ""
  | t :: rest => (if hasDigit p != hasDigit t then " " ++ t else t) ++ specSeps t rest

/-- Refinement reference for the date glyph rule, following the spec's words:
concatenate the fragment texts, inserting a separating space exactly at
digit-class/non-digit-class boundaries between consecutive fragments. -/
def specJoinGlyphs : List String → String
  | [] => ""
  | t :: ts => t ++ specSeps t ts

/-! ## Lemmas about the depth-stack builder -/

theorem popTo_id (d : Nat) (st : BState) (h : ∀ e ∈ st.stack, e.depth < d) :
    popTo d st = st := by
  obtain ⟨res, stack⟩ := st
  cases stack with
  | nil => rfl
  | cons e rest =>
    have he : e.depth < d := h e (by simp)
    simp only [popTo]
    rw [if_neg (by omega)]

theorem addChildren_nil (st : BState) : addChildren [] st = st := by
  obtain ⟨res, stack⟩ := st
  cases stack <;> simp [addChildren]

theorem addChildren_append (xs ys : List Comment) (st : BState) :
    addChildren ys (addChildren xs st) = addChildren (xs ++ ys) st := by
  obtain ⟨res, stack⟩ := st
  cases stack <;> simp [addChildren, List.append_assoc]

theorem addChildren_stack_lt (cs : List Comment) (st : BState) (d : Nat)
    (h : ∀ e ∈ st.stack, e.depth < d) :
    ∀ e ∈ (addChildren cs st).stack, e.depth < d := by
  obtain ⟨res, stack⟩ := st
  cases stack with
  | nil => simp [addChildren]
  | cons e rest =>
    intro e' he'
    simp only [addChildren, List.mem_cons] at he'
    rcases he' with rfl | he'
    · simpa using h e (by simp)
    · exact h e' (by simp [he'])

theorem popTo_popToGo (l m : Nat) (hlm : l ≤ m) (stack : List BEntry) :
    ∀ (r : List Comment) (p : Comment),
      popTo l (popToGo m r p stack) = popToGo l r p stack := by
  induction stack with
  | nil => intro r p; rfl
  | cons e rest ih =>
    intro r p
    by_cases hm : m ≤ e.depth
    · have hl : l ≤ e.depth := le_trans hlm hm
      simp only [popToGo, if_pos hm, if_pos hl]
      exact ih r (closeEntry { e with revKids := p :: e.revKids })
    · simp only [popToGo, if_neg hm]
      by_cases hl : l ≤ e.depth
      · simp [popTo, popToGo, hl]
      · simp [popTo, popToGo, hl]

theorem popTo_popTo (l m : Nat) (hlm : l ≤ m) (st : BState) :
    popTo l (popTo m st) = popTo l st := by
  obtain ⟨res, stack⟩ := st
  cases stack with
  | nil => rfl
  | cons e rest =>
    by_cases hm : m ≤ e.depth
    · have hl : l ≤ e.depth := le_trans hlm hm
      simp only [popTo, if_pos hm, if_pos hl]
      exact popTo_popToGo l m hlm rest res (closeEntry e)
    · simp only [popTo, if_neg hm]

theorem flattenComments_cons (n m : String) (r : Option (List Comment))
    (rest : List Comment) (level : Nat) :
    flattenComments (Comment.mk n m r :: rest) level =
      ⟨n, m, level⟩ :: (flattenComments (kidsOf (Comment.mk n m r)) (level + 1)
        ++ flattenComments rest level) := by
  cases r with
  | none => simp [flattenComments, kidsOf, Comment.replies]
  | some ks =>
    by_cases hk : 0 < ks.length
    · simp [flattenComments, kidsOf, Comment.replies, hk]
    · simp [flattenComments, kidsOf, Comment.replies, hk]

theorem kidsOf_good (n m : String) (r : Option (List Comment))
    (h : noEmptyRepliesNode (Comment.mk n m r) = true) :
    noEmptyRepliesList (kidsOf (Comment.mk n m r)) = true := by
  cases r with
  | none => simp [kidsOf, Comment.replies, noEmptyRepliesList]
  | some ks =>
    simp only [noEmptyRepliesNode, Bool.and_eq_true] at h
    have hk : 0 < ks.length := by
      cases ks with
      | nil => simp [List.isEmpty] at h
      | cons a as => simp
    simpa [kidsOf, Comment.replies, hk] using h.2

theorem closeEntry_kidsOf (n m : String) (r : Option (List Comment)) (l : Nat)
    (hg : noEmptyRepliesNode (Comment.mk n m r) = true) :
    closeEntry ⟨n, m, (kidsOf (Comment.mk n m r)).reverse, l⟩ = Comment.mk n m r := by
  cases r with
  | none => simp [closeEntry, kidsOf, Comment.replies]
  | some ks =>
    simp only [noEmptyRepliesNode, Bool.and_eq_true] at hg
    have hk : 0 < ks.length := by
      cases ks with
      | nil => simp [List.isEmpty] at hg
      | cons a as => simp
    have hne : ks.reverse.isEmpty = false := by
      cases ks with
      | nil => simp at hk
      | cons a as => simp [List.isEmpty_eq_false]
    simp [closeEntry, kidsOf, Comment.replies, hk, hne]

theorem sizeOf_kidsOf (n m : String) (r : Option (List Comment)) :
    sizeOf (kidsOf (Comment.mk n m r)) < sizeOf (Comment.mk n m r) := by
  cases r with
  | none => simp [kidsOf, Comment.replies]
  | some ks =>
    by_cases hk : 0 < ks.length
    · simp [kidsOf, Comment.replies, hk]
      omega
    · simp [kidsOf, Comment.replies, hk]
      have : 0 < sizeOf ks := by cases ks <;> simp_arith
      omega

/-- Folding the builder over a flattening only depends on the start state
through `popTo l` of it: the first record of the flattening (when any) has
depth `l` and performs that pop itself. -/
theorem foldFlatten_congr (cs : List Comment) (l : Nat) (st st' : BState)
    (h : popTo l st = popTo l st') :
    popTo l (List.foldl stepRecord st (flattenComments cs l)) =
      popTo l (List.foldl stepRecord st' (flattenComments cs l)) := by
  cases cs with
  | nil => simpa [flattenComments] using h
  | cons c rest =>
    obtain ⟨n, m, r⟩ := c
    rw [flattenComments_cons, List.foldl_cons, List.foldl_cons]
    have hstep : stepRecord st ⟨n, m, l⟩ = stepRecord st' ⟨n, m, l⟩ := by
      show pushEntry _ (popTo l st) = pushEntry _ (popTo l st')
      rw [h]
    rw [hstep]

/-- The central round-trip lemma: folding the builder over the flattening of
a comment sequence (whose nodes never carry empty `replies`), starting from
any stack whose entries are strictly shallower than the current level, and
then popping back to that level, amounts to attaching the sequence as-is. -/
theorem foldFlatten_popTo : ∀ (cs : List Comment) (l : Nat) (st : BState),
    noEmptyRepliesList cs = true → (∀ e ∈ st.stack, e.depth < l) →
    popTo l (List.foldl stepRecord st (flattenComments cs l)) = addChildren cs st
  | [], l, st, _, hst => by
    simp [flattenComments, popTo_id l st hst, addChildren_nil]
  | Comment.mk n m r :: rest, l, st, hg, hst => by
    have hgc : noEmptyRepliesNode (Comment.mk n m r) = true ∧
        noEmptyRepliesList rest = true := by
      simpa [noEmptyRepliesList, Bool.and_eq_true] using hg
    have hgkids := kidsOf_good n m r hgc.1
    rw [flattenComments_cons, List.foldl_cons, List.foldl_append]
    have hstep : stepRecord st ⟨n, m, l⟩ = pushEntry ⟨n, m, l⟩ st := by
      show pushEntry ⟨n, m, l⟩ (popTo l st) = pushEntry ⟨n, m, l⟩ st
      rw [popTo_id l st hst]
    rw [hstep]
    have hst1 : ∀ e ∈ (pushEntry ⟨n, m, l⟩ st).stack, e.depth < l + 1 := by
      intro e he
      simp only [pushEntry, List.mem_cons] at he
      rcases he with rfl | he
      · simp
      · exact Nat.lt_succ_of_lt (hst e he)
    have hinner := foldFlatten_popTo (kidsOf (Comment.mk n m r)) (l + 1)
      (pushEntry ⟨n, m, l⟩ st) hgkids hst1
    have hpop : popTo l (List.foldl stepRecord (pushEntry ⟨n, m, l⟩ st)
        (flattenComments (kidsOf (Comment.mk n m r)) (l + 1))) =
        addChildren [Comment.mk n m r] st := by
      rw [← popTo_popTo l (l + 1) (Nat.le_succ l), hinner]
      obtain ⟨res, stack⟩ := st
      simp only [addChildren, pushEntry, List.append_nil]
      simp only [popTo, if_pos (le_refl l)]
      rw [closeEntry_kidsOf n m r l hgc.1]
      cases stack with
      | nil => rfl
      | cons e2 r2 =>
        have he2 : e2.depth < l := hst e2 (by simp [pushEntry])
        simp only [popToGo]
        rw [if_neg (by omega)]
        rfl
    have hlt : ∀ e ∈ (addChildren [Comment.mk n m r] st).stack, e.depth < l :=
      addChildren_stack_lt _ st l hst
    rw [foldFlatten_congr rest l _ (addChildren [Comment.mk n m r] st)
        (by rw [hpop, popTo_id _ _ hlt]),
      foldFlatten_popTo rest l (addChildren [Comment.mk n m r] st) hgc.2 hlt,
      addChildren_append, List.singleton_append]
  termination_by cs => sizeOf cs
  decreasing_by
  all_goals
    simp only [List.cons.sizeOf_spec]
    have h1 := sizeOf_kidsOf n m r
    omega
/-! ## Lemmas about the strip pass -/

theorem removeEmptyReplies_length (cs : List Comment) :
    (removeEmptyReplies cs).length = cs.length := by
  induction cs with
  | nil => simp [removeEmptyReplies]
  | cons c rest ih => simp [removeEmptyReplies, ih]

mutual

theorem noEmpty_removeNode : ∀ c : Comment,
    noEmptyRepliesNode (removeEmptyRepliesNode c) = true
  | Comment.mk n m none => by
    simp [removeEmptyRepliesNode, noEmptyRepliesNode]
  | Comment.mk n m (some ks) => by
    by_cases hk : 0 < ks.length
    · have hlist := noEmpty_removeList ks
      have hne : (removeEmptyReplies ks).isEmpty = false := by
        have := removeEmptyReplies_length ks
        cases hrk : removeEmptyReplies ks with
        | nil => rw [hrk] at this; simp at this; omega
        | cons a as => simp
      simp [removeEmptyRepliesNode, hk, noEmptyRepliesNode, hne, hlist]
    · simp [removeEmptyRepliesNode, hk, noEmptyRepliesNode]

theorem noEmpty_removeList : ∀ cs : List Comment,
    noEmptyRepliesList (removeEmptyReplies cs) = true
  | [] => by simp [removeEmptyReplies, noEmptyRepliesList]
  | c :: rest => by
    simp [removeEmptyReplies, noEmptyRepliesList, noEmpty_removeNode c,
      noEmpty_removeList rest]

end

mutual

theorem removeNode_id : ∀ c : Comment, noEmptyRepliesNode c = true →
    removeEmptyRepliesNode c = c
  | Comment.mk n m none, _ => by simp [removeEmptyRepliesNode]
  | Comment.mk n m (some ks), h => by
    simp only [noEmptyRepliesNode, Bool.and_eq_true] at h
    have hk : 0 < ks.length := by
      cases ks with
      | nil => simp [List.isEmpty] at h
      | cons a as => simp
    simp [removeEmptyRepliesNode, hk, removeList_id ks h.2]

theorem removeList_id : ∀ cs : List Comment, noEmptyRepliesList cs = true →
    removeEmptyReplies cs = cs
  | [], _ => by simp [removeEmptyReplies]
  | c :: rest, h => by
    simp only [noEmptyRepliesList, Bool.and_eq_true] at h
    simp [removeEmptyReplies, removeNode_id c h.1, removeList_id rest h.2]

end

/-- Rebuilding from a flattening reproduces any comment sequence in which no
node carries an empty `replies` array. -/
theorem buildNested_flatten (cs : List Comment) (h : noEmptyRepliesList cs = true) :
    buildNested (flattenComments cs 0) = cs := by
  rw [buildNested]
  have := foldFlatten_popTo cs 0 ⟨[], []⟩ h (by simp)
  rw [this, addChildren]
  simp

/-! ## Claims about the comment tree builder -/

/-- C1: for every raw comment record sequence, flattening the tree produced
by the depth-stack builder (with its strip pass) in pre-order while recording
each node's nesting depth, and rebuilding a tree from that flattened
sequence, yields a tree structurally identical to the original.  This holds
for *all* record sequences, in particular for the claim's non-negative,
run-monotonic ones (depths are naturals here, and no monotonicity is
needed). -/
theorem c1_tree_roundtrip (records : List RawCommentRecord) :
    buildCommentTree (flattenComments (buildCommentTree records) 0) =
      buildCommentTree records := by
  have hg : noEmptyRepliesList (buildCommentTree records) = true :=
    noEmpty_removeList _
  calc buildCommentTree (flattenComments (buildCommentTree records) 0)
      = removeEmptyReplies (buildNested (flattenComments (buildCommentTree records) 0)) :=
        rfl
    _ = removeEmptyReplies (buildCommentTree records) := by
        rw [buildNested_flatten _ hg]
    _ = buildCommentTree records := removeList_id _ hg

/-- C2: on the records `[(A,0),(B,1),(C,1),(D,0)]` (for any names and
messages) the depth-stack builder produces exactly the tree
`[{A, replies:[B,C]}, {D}]`, with `D` carrying no `replies` field at all. -/
theorem c2_depth_stack_example (nA mA nB mB nC mC nD mD : String) :
    buildCommentTree [⟨nA, mA, 0⟩, ⟨nB, mB, 1⟩, ⟨nC, mC, 1⟩, ⟨nD, mD, 0⟩] =
      [Comment.mk nA mA (some [Comment.mk nB mB none, Comment.mk nC mC none]),
       Comment.mk nD mD none] := by
  have hb : buildNested [⟨nA, mA, 0⟩, ⟨nB, mB, 1⟩, ⟨nC, mC, 1⟩, ⟨nD, mD, 0⟩] =
      [Comment.mk nA mA (some [Comment.mk nB mB none, Comment.mk nC mC none]),
       Comment.mk nD mD none] := rfl
  show removeEmptyReplies _ = _
  rw [hb]
  simp [removeEmptyReplies, removeEmptyRepliesNode]

/-- C3: for every raw comment record sequence, no node of the tree returned
by the builder (after the recursive strip pass) has a `replies` field of
length zero — a node with no replies omits the field entirely. -/
theorem c3_empty_replies_invariant (records : List RawCommentRecord) :
    noEmptyRepliesList (buildCommentTree records) = true :=
  noEmpty_removeList _

/-! ## Lemmas about the date extractor -/

theorem sortSpans_of_pairwise (spans : List Span)
    (h : List.Pairwise (fun a b => spanCmp a b ≤ 0) spans) :
    sortSpans spans = spans := by
  induction spans with
  | nil => rfl
  | cons a rest ih =>
    have h1 := List.pairwise_cons.mp h
    rw [sortSpans, ih h1.2]
    cases rest with
    | nil => rfl
    | cons b bs => simp [insertSpan, h1.1 b (by simp)]

theorem joinGlyphsGo_spec (rest : List Span) : ∀ (acc prev : String),
    joinGlyphsGo acc prev rest = acc ++ specSeps prev (rest.map Span.text) := by
  induction rest with
  | nil =>
    intro acc prev
    simp [joinGlyphsGo, specSeps, String.append_empty]
  | cons s rest ih =>
    intro acc prev
    rw [joinGlyphsGo, ih]
    by_cases hc : (hasDigit prev != hasDigit s.text) = true
    · simp [specSeps, hc, String.append_assoc]
    · simp [specSeps, hc, String.append_assoc]

theorem joinGlyphs_spec (spans : List Span) :
    joinGlyphs spans = specJoinGlyphs (spans.map Span.text) := by
  cases spans with
  | nil => rfl
  | cons s rest => simp [joinGlyphs, specJoinGlyphs, joinGlyphsGo_spec]

/-! ## Claims about the date extractor -/

/-- C4 counterexample: on the claim's own concrete inputs the extractor
returns `"8 h"` (a space *is* inserted at the digit/non-digit boundary), not
`"8h"`; and the three-character fragment `"hrs"` is discarded by the
single-character filter, so the result is `"8"`, not `"8 hrs"`. -/
theorem c4_counterexample :
    scrapePostDate (some ⟨"8h", [⟨"8", 0, 10⟩, ⟨"h", 0, 20⟩]⟩) = "8 h" ∧
    scrapePostDate (some ⟨"8h", [⟨"8", 0, 10⟩, ⟨"h", 0, 20⟩]⟩) ≠ "8h" ∧
    scrapePostDate (some ⟨"8 hrs", [⟨"8", 0, 10⟩, ⟨"hrs", 0, 20⟩]⟩) = "8" ∧
    scrapePostDate (some ⟨"8 hrs", [⟨"8", 0, 10⟩, ⟨"hrs", 0, 20⟩]⟩) ≠ "8 hrs" :=
  ⟨by decide, by decide, by decide, by decide⟩

/-- C4 (amended): for single-character glyph fragments lying in one vertical
band (pairwise within the 5px tolerance of the first fragment) and already
sorted by the extractor's comparator, the date extractor concatenates the
fragment texts inserting a separating space exactly at digit-class/non-digit
class boundaries between consecutive fragments and never within a same-class
run (`specJoinGlyphs`); consequently `"8","h"` yields `"8 h"`, and a
multi-character fragment such as `"hrs"` never reaches the concatenation. -/
theorem c4_glyph_rule (txt : String) (first : Span) (rest : List Span)
    (h1 : ∀ s ∈ first :: rest, (jsTrim s.text).length = 1)
    (h2 : List.Pairwise (fun a b => spanCmp a b ≤ 0) (first :: rest))
    (h3 : ∀ s ∈ first :: rest, (s.y - first.y).natAbs < 5) :
    scrapePostDate (some ⟨txt, first :: rest⟩) =
      specJoinGlyphs ((first :: rest).map Span.text) := by
  have h1' : ∀ s ∈ first :: rest, ((jsTrim s.text).length == 1) = true := by
    intro s hs
    simp [h1 s hs]
  have hfilter : (first :: rest).filter (fun s => (jsTrim s.text).length == 1) =
      first :: rest := List.filter_eq_self.mpr h1'
  have h3' : ∀ s ∈ first :: rest, (decide ((s.y - first.y).natAbs < 5)) = true := by
    intro s hs
    simp [h3 s hs]
  have hband : (first :: rest).filter (fun s => decide ((s.y - first.y).natAbs < 5)) =
      first :: rest := List.filter_eq_self.mpr h3'
  simp only [scrapePostDate, hfilter]
  rw [sortSpans_of_pairwise _ h2]
  simp only [List.length_cons, Nat.beq]
  rw [if_neg (by simp)]
  rw [hband, joinGlyphs_spec]

/-- C4 witness: the amended rule applied at the concrete fragments
`"8"`(x=10,y=0), `"h"`(x=20,y=0). -/
theorem c4_glyph_rule_witness :
    (∀ s ∈ [Span.mk "8" 0 10, Span.mk "h" 0 20], (jsTrim s.text).length = 1) ∧
    scrapePostDate (some ⟨"8h", [⟨"8", 0, 10⟩, ⟨"h", 0, 20⟩]⟩) =
      specJoinGlyphs ["8", "h"] :=
  ⟨by decide,
   c4_glyph_rule "8h" ⟨"8", 0, 10⟩ [⟨"h", 0, 20⟩] (by decide) (by decide) (by decide)⟩

/-! ## Claims about sentinel totality and the engagement extractor -/

/-- C6: every field extractor, given an absent (`none`) or empty input
container, returns its defined not-found value instead of failing: the date
extractor returns `DATE_NOT_FOUND`, the author/location extractor returns
`AUTHOR_NOT_FOUND`/`LOCATION_NOT_FOUND`, and the engagement extractor its
zero defaults.  (All extractors are total functions by construction, the
embedding of "never throws".) -/
theorem c6_sentinel_totality :
    scrapePostDate none = "DATE_NOT_FOUND" ∧
    scrapePostDate (some ⟨"", []⟩) = "DATE_NOT_FOUND" ∧
    (∀ dp : Option LinkEl, scrapePostAuthorAndMeta none dp =
      ⟨"AUTHOR_NOT_FOUND", "LOCATION_NOT_FOUND"⟩) ∧
    (∀ dp : Option LinkEl, scrapePostAuthorAndMeta (some ⟨none, []⟩) dp =
      ⟨"AUTHOR_NOT_FOUND", "LOCATION_NOT_FOUND"⟩) ∧
    scrapeEngagement none = ⟨⟨"", some 0⟩, 0⟩ ∧
    scrapeEngagement (some ⟨"", none⟩) = ⟨⟨"", some 0⟩, 0⟩ :=
  ⟨rfl, rfl, fun _ => rfl, fun _ => rfl, rfl, rfl⟩

/-- C8: with exactly one integer run in the stats text, the number heuristic
yields `(otherCount, totalComments) = (0, n)` when the text contains
"comment" case-insensitively and `(n, 0)` otherwise; concretely, stats text
`"24"` gives `{otherCount := 24, totalComments := 0}` and `"5 Comments"`
gives `{otherCount := 0, totalComments := 5}`. -/
theorem c8_count_heuristic :
    (∀ text n, digitRuns text = [n] → containsCommentCI text = true →
      engagementHeuristic text = (some 0, parseIntOr0 n)) ∧
    (∀ text n, digitRuns text = [n] → containsCommentCI text = false →
      engagementHeuristic text = (some (parseIntOr0 n), 0)) ∧
    scrapeEngagement (some ⟨"24", none⟩) = ⟨⟨"", some 24⟩, 0⟩ ∧
    scrapeEngagement (some ⟨"5 Comments", none⟩) = ⟨⟨"", some 0⟩, 5⟩ := by
  refine ⟨?_, ?_, by decide, by decide⟩
  · intro text n hd hc
    simp [engagementHeuristic, hd, hc]
  · intro text n hd hc
    simp [engagementHeuristic, hd, hc]

/-- C8 witness: the "comment"-present branch applied at stats text
`"5 Comments"`. -/
theorem c8_count_heuristic_witness :
    digitRuns "5 Comments" = ["5"] ∧ containsCommentCI "5 Comments" = true ∧
    engagementHeuristic "5 Comments" = (some 0, parseIntOr0 "5") :=
  ⟨by decide, by decide, c8_count_heuristic.1 "5 Comments" "5" (by decide) (by decide)⟩

/-- C7 counterexample: the likers pattern `/(.+) and ([\d,]+) others?/` has
no `i` flag, so `"Jane and 12 OTHERS"` does *not* match; the whole text
becomes `firstLiker` and no count is parsed, contradicting the claim's
case-insensitive matching of "others". -/
theorem c7_counterexample :
    (scrapeEngagement (some ⟨"", some "Jane and 12 OTHERS"⟩)).likes.firstLiker =
      "Jane and 12 OTHERS" ∧
    (scrapeEngagement (some ⟨"", some "Jane and 12 OTHERS"⟩)).likes.firstLiker ≠ "Jane" ∧
    (scrapeEngagement (some ⟨"", some "Jane and 12 OTHERS"⟩)).likes.otherCount ≠ some 12 :=
  ⟨by decide, by decide, by decide⟩

/-- C7 (amended): when the likers element's trimmed text matches the pattern
`"<name> and <count> others"` with "others"/"other" matched
*case-sensitively* (the source regex carries no `i` flag), the extractor
overwrites `firstLiker` with the trimmed name and `otherCount` with the
comma-stripped integer; when the text is present but neither number-only nor
a pattern match, the whole text becomes `firstLiker`; on the concrete input
`"Jane and 12 others"` the result is `firstLiker = "Jane"`,
`otherCount = 12`, overriding the prior count 99. -/
theorem c7_likers_override :
    (∀ (d : StatsDiv) (t name cnt : String), d.likersText = some t → jsTrim t ≠ "" →
      likersMatch (jsTrim t) = some (name, cnt) →
      scrapeEngagement (some d) =
        ⟨⟨jsTrim name, parseIntJS (stripCommas cnt)⟩,
         (engagementHeuristic d.innerText).2⟩) ∧
    (∀ (d : StatsDiv) (t : String), d.likersText = some t → jsTrim t ≠ "" →
      likersMatch (jsTrim t) = none → isAllDigits (jsTrim t) = false →
      scrapeEngagement (some d) =
        ⟨⟨jsTrim t, (engagementHeuristic d.innerText).1⟩,
         (engagementHeuristic d.innerText).2⟩) ∧
    scrapeEngagement (some ⟨"99", some "Jane and 12 others"⟩) = ⟨⟨"Jane", some 12⟩, 0⟩ := by
  refine ⟨?_, ?_, by decide⟩
  · intro d t name cnt hlt ht hm
    simp [scrapeEngagement, hlt, ht, hm]
  · intro d t hlt ht hm hd
    simp [scrapeEngagement, hlt, ht, hm, hd]

/-- C7 witness: the match branch applied at the concrete label
`"Jane and 12 others"` over stats text `"99"`. -/
theorem c7_likers_override_witness :
    (StatsDiv.mk "99" (some "Jane and 12 others")).likersText =
      some "Jane and 12 others" ∧
    jsTrim "Jane and 12 others" ≠ "" ∧
    likersMatch (jsTrim "Jane and 12 others") = some ("Jane", "12") ∧
    scrapeEngagement (some ⟨"99", some "Jane and 12 others"⟩) =
      ⟨⟨jsTrim "Jane", parseIntJS (stripCommas "12")⟩, (engagementHeuristic "99").2⟩ :=
  ⟨rfl, by decide, by decide,
   c7_likers_override.1 ⟨"99", some "Jane and 12 others"⟩ "Jane and 12 others"
     "Jane" "12" rfl (by decide) (by decide)⟩

/-! ## Lemmas about the avatar map -/

theorem getKey_setKey_self (m : AvatarMap) (k : String) (v : Option String) :
    getKey (setKey m k v) k = some v := by
  induction m with
  | nil => simp [setKey, getKey]
  | cons p rest ih =>
    obtain ⟨k', v'⟩ := p
    by_cases h : k' = k
    · simp [setKey, getKey, h]
    · simp [setKey, getKey, h, ih]

theorem getKey_setKey_ne (m : AvatarMap) (k k' : String) (v : Option String)
    (h : k' ≠ k) : getKey (setKey m k v) k' = getKey m k' := by
  have hks : ¬k = k' := fun hh => h hh.symm
  induction m with
  | nil => simp [setKey, getKey, hks]
  | cons p rest ih =>
    obtain ⟨k2, v2⟩ := p
    by_cases h2 : k2 = k
    · subst h2
      simp [setKey, getKey, hks]
    · by_cases h3 : k2 = k'
      · simp [setKey, getKey, h2, h3, h]
      · simp [setKey, getKey, h2, h3, ih]

theorem truthyAt_setKey_ne (m : AvatarMap) (k k' : String) (v : Option String)
    (h : k' ≠ k) : truthyAt (setKey m k v) k' = truthyAt m k' := by
  simp [truthyAt, getKey_setKey_ne m k k' v h]

/-- Once a truthy avatar is recorded for a name, the per-article pass never
changes it (stores happen only when no truthy entry exists). -/
theorem foldScrape_truthy_persist (name : String) (u : String) (hu : u ≠ "") :
    ∀ (articles : List ArticleEl) (acc : AvatarMap × List RawCommentRecord),
      getKey acc.1 name = some (some u) →
      getKey (articles.foldl scrapeStep acc).1 name = some (some u) := by
  intro articles
  induction articles with
  | nil => intro acc h; simpa using h
  | cons el rest ih =>
    intro acc h
    rw [List.foldl_cons]
    apply ih
    have htr : truthyAt acc.1 name = true := by simp [truthyAt, h, hu]
    cases hp : parseArticle el with
    | none => simpa [scrapeStep, hp] using h
    | some nm =>
      obtain ⟨n, msg⟩ := nm
      by_cases hn : n = name
      · subst hn
        cases ha : el.avatarHref with
        | none => simpa [scrapeStep, hp, ha] using h
        | some oh =>
          cases oh with
          | none => simpa [scrapeStep, hp, ha] using h
          | some hv => simpa [scrapeStep, hp, ha, htr] using h
      · have hname : name ≠ n := fun hh => hn hh.symm
        cases ha : el.avatarHref with
        | none => simpa [scrapeStep, hp, ha] using h
        | some oh =>
          cases oh with
          | none => simpa [scrapeStep, hp, ha] using h
          | some hv =>
            by_cases hg : (hv != "" && !truthyAt acc.1 n) = true
            · simpa [scrapeStep, hp, ha, hg,
                getKey_setKey_ne acc.1 n name (some hv) hname] using h
            · simpa [scrapeStep, hp, ha, hg] using h

/-- When no truthy avatar is recorded yet for a name, the pass records the
avatar of the first parsed comment by that name carrying a truthy avatar. -/
theorem foldScrape_first (name : String) :
    ∀ (articles : List ArticleEl) (acc : AvatarMap × List RawCommentRecord) (u : String),
      truthyAt acc.1 name = false →
      specFirstAvatarFor articles name = some u →
      getKey (articles.foldl scrapeStep acc).1 name = some (some u) := by
  intro articles
  induction articles with
  | nil =>
    intro acc u h hf
    simp [specFirstAvatarFor] at hf
  | cons el rest ih =>
    intro acc u h hf
    rw [List.foldl_cons]
    cases hp : parseArticle el with
    | none =>
      have hf' : specFirstAvatarFor rest name = some u := by
        simpa [specFirstAvatarFor, List.findSome?_cons, hp] using hf
      have hst : scrapeStep acc el = acc := by simp [scrapeStep, hp]
      rw [hst]
      exact ih acc u h hf'
    | some nm =>
      obtain ⟨n, msg⟩ := nm
      by_cases hn : n = name
      · subst hn
        cases ha : el.avatarHref with
        | none =>
          have hf' : specFirstAvatarFor rest n = some u := by
            simpa [specFirstAvatarFor, List.findSome?_cons, hp, ha] using hf
          have hst : (scrapeStep acc el).1 = acc.1 := by simp [scrapeStep, hp, ha]
          exact ih (scrapeStep acc el) u (by rw [hst]; exact h) hf'
        | some oh =>
          cases oh with
          | none =>
            have hf' : specFirstAvatarFor rest n = some u := by
              simpa [specFirstAvatarFor, List.findSome?_cons, hp, ha] using hf
            have hst : (scrapeStep acc el).1 = acc.1 := by simp [scrapeStep, hp, ha]
            exact ih (scrapeStep acc el) u (by rw [hst]; exact h) hf'
          | some hv =>
            by_cases hh : hv = ""
            · subst hh
              have hf' : specFirstAvatarFor rest n = some u := by
                simpa [specFirstAvatarFor, List.findSome?_cons, hp, ha] using hf
              have hst : (scrapeStep acc el).1 = acc.1 := by
                simp [scrapeStep, hp, ha]
              exact ih (scrapeStep acc el) u (by rw [hst]; exact h) hf'
            · have hu : u = hv := by
                have hfc := hf
                simp [specFirstAvatarFor, List.findSome?_cons, hp, ha, hh] at hfc
                exact hfc.symm
              have hst : (scrapeStep acc el).1 = setKey acc.1 n (some hv) := by
                simp [scrapeStep, hp, ha, hh, h]
              rw [hu]
              exact foldScrape_truthy_persist n hv hh rest (scrapeStep acc el)
                (by rw [hst, getKey_setKey_self])
      · have hname : name ≠ n := fun hh => hn hh.symm
        have hf' : specFirstAvatarFor rest name = some u := by
          simpa [specFirstAvatarFor, List.findSome?_cons, hp, hn] using hf
        have htr : truthyAt (scrapeStep acc el).1 name = false := by
          cases ha : el.avatarHref with
          | none => simpa [scrapeStep, hp, ha] using h
          | some oh =>
            cases oh with
            | none => simpa [scrapeStep, hp, ha] using h
            | some hv =>
              by_cases hg : (hv != "" && !truthyAt acc.1 n) = true
              · rw [show (scrapeStep acc el).1 = setKey acc.1 n (some hv) by
                  simp [scrapeStep, hp, ha, hg]]
                rw [truthyAt_setKey_ne acc.1 n name (some hv) hname]
                exact h
              · simpa [scrapeStep, hp, ha, hg] using h
        exact ih (scrapeStep acc el) u htr hf'

/-! ## Claims about the comment/avatar extractor -/

/-- C5 counterexample: for an absent (`null`) comments container the
extractor returns before the fallback assignment, so the returned avatar map
is empty and has no `fallback` key at all. -/
theorem c5_counterexample :
    getKey (scrapeCommentsAndAvatars none "X" none).2 "fallback" = none :=
  rfl

/-- C5 (amended): for every *non-null* comments container — including one
from which zero comments were parsed — the returned avatar map contains the
key `fallback`, bound to the non-empty placeholder URL.  (For a null
container the extractor returns an empty map without the key.) -/
theorem c5_fallback_present :
    (∀ (articles : List ArticleEl) (postAuthor : String)
        (avatarEl : Option (Option String)),
      getKey (scrapeCommentsAndAvatars (some articles) postAuthor avatarEl).2 "fallback" =
        some (some placeholderAvatar)) ∧
    placeholderAvatar ≠ "" := by
  refine ⟨?_, by decide⟩
  intro articles postAuthor avatarEl
  simp only [scrapeCommentsAndAvatars]
  split <;> simp [getKey_setKey_self]

/-- C9 counterexample: three concrete violations of unrestricted
first-seen-wins.  (1) Two parsed comments by an author literally named
`fallback` with distinct non-empty avatar URLs: the final placeholder
assignment overwrites the entry, so neither URL is retained.  (2) Two parsed
comments by the post author when the header already seeded an avatar: the
seeded URL wins, not the first comment's.  (3) When the first comment's URL
is the empty string (falsy), the second comment's URL is retained instead. -/
theorem c9_counterexample :
    (getKey (scrapeCommentsAndAvatars
        (some [⟨1, some "fallback", some "m1", some (some "u1")⟩,
               ⟨1, some "fallback", some "m2", some (some "u2")⟩]) "P" none).2 "fallback" =
      some (some placeholderAvatar) ∧
     getKey (scrapeCommentsAndAvatars
        (some [⟨1, some "fallback", some "m1", some (some "u1")⟩,
               ⟨1, some "fallback", some "m2", some (some "u2")⟩]) "P" none).2 "fallback" ≠
      some (some "u1")) ∧
    (getKey (scrapeCommentsAndAvatars
        (some [⟨1, some "P", some "m1", some (some "u1")⟩,
               ⟨1, some "P", some "m2", some (some "u2")⟩]) "P" (some (some "uh"))).2 "P" =
      some (some "uh") ∧
     getKey (scrapeCommentsAndAvatars
        (some [⟨1, some "P", some "m1", some (some "u1")⟩,
               ⟨1, some "P", some "m2", some (some "u2")⟩]) "P" (some (some "uh"))).2 "P" ≠
      some (some "u1")) ∧
    (getKey (scrapeCommentsAndAvatars
        (some [⟨1, some "N", some "m1", some (some "")⟩,
               ⟨1, some "N", some "m2", some (some "u2")⟩]) "P" none).2 "N" =
      some (some "u2") ∧
     getKey (scrapeCommentsAndAvatars
        (some [⟨1, some "N", some "m1", some (some "")⟩,
               ⟨1, some "N", some "m2", some (some "u2")⟩]) "P" none).2 "N" ≠
      some (some "")) :=
  ⟨⟨by decide, by decide⟩, ⟨by decide, by decide⟩, ⟨by decide, by decide⟩⟩

/-- C9 (amended): for every article sequence and every author name other
than the reserved key `fallback` for which the post-author header seeding
recorded no truthy avatar, the returned map binds the name to the avatar URL
of the *first* parsed comment by that name carrying a non-empty avatar URL;
later (different) URLs for that name are ignored. -/
theorem c9_first_seen (articles : List ArticleEl) (postAuthor : String)
    (avatarEl : Option (Option String)) (name u : String)
    (hfb : name ≠ "fallback")
    (hseed : truthyAt (seedAvatars postAuthor avatarEl) name = false)
    (hfirst : specFirstAvatarFor articles name = some u) :
    getKey (scrapeCommentsAndAvatars (some articles) postAuthor avatarEl).2 name =
      some (some u) := by
  have hm := foldScrape_first name articles (seedAvatars postAuthor avatarEl, []) u
    hseed hfirst
  simp only [scrapeCommentsAndAvatars]
  split <;> rw [getKey_setKey_ne _ _ _ _ hfb] <;> exact hm

/-- C9 witness: two parsed comments by `"N"` carrying `"u1"` then `"u2"`;
the map retains `"u1"`. -/
theorem c9_first_seen_witness :
    ("N" : String) ≠ "fallback" ∧
    truthyAt (seedAvatars "P" none) "N" = false ∧
    specFirstAvatarFor [⟨0, some "N", some "m1", some (some "u1")⟩,
      ⟨0, some "N", some "m2", some (some "u2")⟩] "N" = some "u1" ∧
    getKey (scrapeCommentsAndAvatars
      (some [⟨0, some "N", some "m1", some (some "u1")⟩,
             ⟨0, some "N", some "m2", some (some "u2")⟩]) "P" none).2 "N" =
      some (some "u1") :=
  ⟨by decide, rfl, by decide,
   c9_first_seen [⟨0, some "N", some "m1", some (some "u1")⟩,
     ⟨0, some "N", some "m2", some (some "u2")⟩] "P" none "N" "u1"
     (by decide) rfl (by decide)⟩

/-! ## Claims about the viewer -/

theorem runNav_le (flat : List RawCommentRecord) (steps : List NavStep) :
    ∀ s : ViewerState, s.currentCommentIndex ≤ flat.length →
      (runNav flat steps s).currentCommentIndex ≤ flat.length := by
  induction steps with
  | nil => intro s h; simpa [runNav] using h
  | cons st rest ih =>
    intro s h
    simp only [runNav, List.foldl_cons]
    have hstep : ∀ s' : ViewerState, s'.currentCommentIndex ≤ flat.length →
        (match st with
          | NavStep.next => handleNextComment flat s'
          | NavStep.prev => handlePreviousComment flat s').currentCommentIndex ≤
          flat.length := by
      intro s' h'
      cases st with
      | next =>
        by_cases hlt : s'.currentCommentIndex < flat.length
        · simp [handleNextComment, hlt]
          omega
        · simp [handleNextComment, hlt, h']
      | prev =>
        by_cases hpos : 0 < s'.currentCommentIndex
        · simp [handlePreviousComment, hpos]
          omega
        · simp [handlePreviousComment, hpos, h']
    exact ih _ (hstep s h)

/-- C10: under every sequence of forward/backward steps from the initial
state, the navigation index stays within `[0, length of the flattened
comment list]` (the lower bound holds because the index is a natural
number); moreover a forward step at index = length and a backward step at
index = 0 each leave the index, the rendered comment list and the overlay —
the whole viewer state — unchanged. -/
theorem c10_viewer_bounds :
    (∀ (comments : List Comment) (steps : List NavStep),
      (runNav (flattenComments comments 0) steps initViewer).currentCommentIndex ≤
        (flattenComments comments 0).length) ∧
    (∀ (flat : List RawCommentRecord) (s : ViewerState),
      s.currentCommentIndex = flat.length → handleNextComment flat s = s) ∧
    (∀ (flat : List RawCommentRecord) (s : ViewerState),
      s.currentCommentIndex = 0 → handlePreviousComment flat s = s) := by
  refine ⟨fun comments steps =>
    runNav_le (flattenComments comments 0) steps initViewer (by simp [initViewer]), ?_, ?_⟩
  · intro flat s h
    simp [handleNextComment, h]
  · intro flat s h
    simp [handlePreviousComment, h]

/-- C10 witness: the two no-op steps at the boundary states. -/
theorem c10_viewer_bounds_witness :
    (ViewerState.mk 1 [⟨"n", "m", 0⟩] (some ⟨"n", "m", 0⟩)).currentCommentIndex =
      ([⟨"n", "m", 0⟩] : List RawCommentRecord).length ∧
    handleNextComment [⟨"n", "m", 0⟩] ⟨1, [⟨"n", "m", 0⟩], some ⟨"n", "m", 0⟩⟩ =
      ⟨1, [⟨"n", "m", 0⟩], some ⟨"n", "m", 0⟩⟩ ∧
    handlePreviousComment [⟨"n", "m", 0⟩] ⟨0, [], none⟩ = ⟨0, [], none⟩ :=
  ⟨rfl,
   c10_viewer_bounds.2.1 [⟨"n", "m", 0⟩] ⟨1, [⟨"n", "m", 0⟩], some ⟨"n", "m", 0⟩⟩ rfl,
   c10_viewer_bounds.2.2 [⟨"n", "m", 0⟩] ⟨0, [], none⟩ rfl⟩
